import Mathlib

/-!
Verification of the label-selector library (`selector.py`): lexer, recursive
descent parser, requirement validation and matching evaluator, embedded
shallowly in Lean.  Python exceptions are modelled by `Except PError`;
the candidate key/value map is an association list queried by first match;
Python's insertion-ordered `dict` used by `StringSet` is modelled as a
duplicate-free insertion-ordered list.
-/

/-- The nine selector operators (`Operator` enum in the source). -/
inductive Operator
  | DoesNotExist
  | Equals
  | In
  | NotEquals
  | NotIn
  | Exists
  | GreaterThan
  | LessThan
  | Regex
deriving DecidableEq

/-- Lexical token kinds (`Token` enum in the source). -/
inductive Token
  | UnknownToken
  | EndOfStringToken
  | IdentifierToken
  | ClosedParToken
  | CommaToken
  | DoesNotExistToken
  | EqualsToken
  | GreaterThanToken
  | InToken
  | LessThanToken
  | NotEqualsToken
  | NotInToken
  | OpenParToken
  | RegexToken
deriving DecidableEq

/-- `token_map`: literal text of symbols and keywords to tokens. -/
def token_map (s : String) : Option Token :=
  if s = ")" then some .ClosedParToken
  else if s = "," then some .CommaToken
  else if s = "!" then some .DoesNotExistToken
  else if s = "=" then some .EqualsToken
  else if s = ">" then some .GreaterThanToken
  else if s = "in" then some .InToken
  else if s = "<" then some .LessThanToken
  else if s = "!=" then some .NotEqualsToken
  else if s = "notin" then some .NotInToken
  else if s = "(" then some .OpenParToken
  else if s = "re" then some .RegexToken
  else none

/-- Errors raised by the library (Python exceptions).  Message texts are kept
in structured form; `indexError` stands for Python `IndexError` on
out-of-range list access. -/
inductive PError
  | indexError
  | lexicalError (msg : String)
  | syntaxError (found : String) (expected : String)
  | validationError (msg : String)
deriving DecidableEq

/-- Characters accepted by Python `int()` as strippable whitespace. -/
def isPySpace (c : Char) : Bool :=
  c = ' ' ∨ c = '\t' ∨ c = '\n' ∨ c = '\r' ∨ c = '\x0b' ∨ c = '\x0c'

/-- ASCII decimal digit value, the digits Python `int()` accepts
(non-ASCII digits are out of scope for this ASCII-oriented grammar). -/
def pyDigit (c : Char) : Option Nat :=
  if '0' ≤ c ∧ c ≤ '9' then some (c.toNat - '0'.toNat) else none

/-- Remaining digits of a Python integer literal: digits possibly separated
by single underscores (no leading, trailing or doubled underscore). -/
def pyDigitsAux : Nat → List Char → Option Nat
  | acc, [] => some acc
  | acc, '_' :: c :: cs =>
    match pyDigit c with
    | some d => pyDigitsAux (acc * 10 + d) cs
    | none => none
  | acc, c :: cs =>
    match pyDigit c with
    | some d => pyDigitsAux (acc * 10 + d) cs
    | none => none

/-- Python `int(str)`: optional surrounding whitespace, optional sign,
non-empty digit sequence; `none` when `int()` would raise `ValueError`. -/
def pyInt (s : String) : Option Int :=
  let cs := ((s.data.dropWhile isPySpace).reverse.dropWhile isPySpace).reverse
  let signed : Int × List Char :=
    match cs with
    | '+' :: rest => (1, rest)
    | '-' :: rest => (-1, rest)
    | rest => (1, rest)
  match signed.2 with
  | [] => none
  | c :: rest =>
    match pyDigit c with
    | none => none
    | some d => (pyDigitsAux d rest).map (fun n => signed.1 * (n : Int))

/-- `StringSet.insert` for a single item: Python dict assignment `set[item] =
True` keeps the first-insertion position of an existing key and appends a new
key at the end. -/
def stringSetInsert (s : List String) (item : String) : List String :=
  if s.contains item then s else s ++ [item]

/-- Modelled from the spec: the `Regex` branch of `Requirement.matches`
delegates to Python's `re.match` (the `re` module is outside this
repository).  The spec states an anchored-at-start (not full-string, not
searching) match; modelled here for a small pattern subset (optional leading
caret, literal characters, dot, postfix star, final dollar).  No claim below
depends on its behaviour. -/
def charMatch (p c : Char) : Bool := p = '.' || p = c

/-- Modelled from the spec: anchored regular-expression matching engine
backing `reMatch`; first argument is the pattern, second the candidate. -/
def reMatchAux : List Char → List Char → Bool
  | [], _ => true
  | ['$'], s => s.isEmpty
  | _ :: '*' :: ps, [] => reMatchAux ps []
  | p :: '*' :: ps, c :: cs =>
    reMatchAux ps (c :: cs) || (charMatch p c && reMatchAux (p :: '*' :: ps) cs)
  | _ :: _, [] => false
  | p :: ps, c :: cs => charMatch p c && reMatchAux ps cs
termination_by p s => (s.length, p.length)

/-- Modelled from the spec: `re.match(pattern, value)` truthiness — `true`
iff the pattern matches at position 0 of the value. -/
def reMatch (pattern value : String) : Bool :=
  match pattern.data with
  | '^' :: ps => reMatchAux ps value.data
  | ps => reMatchAux ps value.data

/-- A validated (key, operator, values) triple (`Requirement` class). -/
structure Requirement where
  key : String
  operator : Operator
  values : List String
deriving DecidableEq

/-- `Requirement.__init__`: operator/value-count validation; `.ok` returns
the constructed requirement, `.error` models the raised exception. -/
def mkRequirement (key : String) (operator : Operator) (values : List String) :
    Except PError Requirement :=
  if operator = .In ∨ operator = .NotIn then
    if values.length = 0 then
      .error (.validationError "for in, notin operators, values set cannot be empty")
    else .ok ⟨key, operator, values⟩
  else if operator = .Equals ∨ operator = .NotEquals ∨ operator = .Regex then
    if values.length ≠ 1 then
      .error (.validationError "exact-match compatibility requires one single value")
    else .ok ⟨key, operator, values⟩
  else if operator = .Exists ∨ operator = .DoesNotExist then
    if values.length ≠ 0 then
      .error (.validationError "values set must be empty for exists and does not exist")
    else .ok ⟨key, operator, values⟩
  else
    if values.length ≠ 1 then
      .error (.validationError "for gt, lt operators, exactly one value is required")
    else if values.all (fun v => (pyInt v).isSome) then .ok ⟨key, operator, values⟩
    else .error (.validationError "for gt, lt operators, the value must be an integer")

/-- `Requirement.has_value`: linear scan of the value list. -/
def hasValue (values : List String) (v : String) : Bool :=
  values.any (fun x => x = v)

/-- Candidate key/value map; duplicate keys never arise from Python dicts,
lookup takes the first binding. -/
def Kvs := List (String × String)

/-- Python `kvs.get(key)` / `key in kvs`. -/
def kvsGet (kvs : Kvs) (k : String) : Option String :=
  match kvs with
  | [] => none
  | (k', v) :: rest => if k' = k then some v else kvsGet rest k

/-- `Requirement.matches`: evaluation of one requirement against a candidate
map; `.error` models a Python exception escaping `matches` (an unparseable
candidate under `gt`/`lt`, or `IndexError` on `values[0]` of a requirement
built with an empty value list). -/
def Requirement.matches (r : Requirement) (kvs : Kvs) : Except PError Bool :=
  if r.operator = .In ∨ r.operator = .Equals then
    match kvsGet kvs r.key with
    | none => .ok false
    | some v => .ok (hasValue r.values v)
  else if r.operator = .NotIn ∨ r.operator = .NotEquals then
    match kvsGet kvs r.key with
    | none => .ok true
    | some v => .ok (!hasValue r.values v)
  else if r.operator = .Exists then
    .ok (kvsGet kvs r.key).isSome
  else if r.operator = .DoesNotExist then
    .ok (kvsGet kvs r.key).isNone
  else if r.operator = .Regex then
    match kvsGet kvs r.key with
    | none => .ok false
    | some v =>
      match r.values.head? with
      | none => .error .indexError
      | some pat => .ok (reMatch pat v)
  else if r.operator = .GreaterThan ∨ r.operator = .LessThan then
    match kvsGet kvs r.key with
    | none => .ok false
    | some cand =>
      match pyInt cand with
      | none => .error (.validationError "invalid literal for int with base 10")
      | some ci =>
        match r.values.head? with
        | none => .error .indexError
        | some v0 =>
          match pyInt v0 with
          | none => .error (.validationError "invalid literal for int with base 10")
          | some vi =>
            .ok (decide ((r.operator = .GreaterThan ∧ ci > vi) ∨
                         (r.operator = .LessThan ∧ ci < vi)))
  else .ok false

/-- An ordered conjunction of requirements (`Selector` class). -/
structure Selector where
  requirements : List Requirement
deriving DecidableEq

/-- The loop body of `Selector.matches`: short-circuit on the first failing
requirement, propagate the first raised exception. -/
def matchesAll (rs : List Requirement) (kvs : Kvs) : Except PError Bool :=
  match rs with
  | [] => .ok true
  | r :: rest =>
    match r.matches kvs with
    | .error e => .error e
    | .ok false => .ok false
    | .ok true => matchesAll rest kvs

/-- `Selector.matches`. -/
def Selector.matches (sel : Selector) (kvs : Kvs) : Except PError Bool :=
  matchesAll sel.requirements kvs

/-- `is_whitespace` from the source. -/
def is_whitespace (c : Char) : Bool :=
  c = ' ' ∨ c = '\t' ∨ c = '\r' ∨ c = '\n'

/-- `is_special_symbol` from the source. -/
def is_special_symbol (c : Char) : Bool :=
  c = '=' ∨ c = '!' ∨ c = '(' ∨ c = ')' ∨ c = ',' ∨ c = '>' ∨ c = '<'

/-- A character that continues an identifier-or-keyword buffer. -/
def plainChar (c : Char) : Bool :=
  !(is_special_symbol c || is_whitespace c)

/-- One scanned token with its literal (`ScannedItem` class). -/
structure ScannedItem where
  tok : Token
  literal : String
deriving DecidableEq

/-- `Lexer.scan_id_or_keyword`: consume characters until end of input,
whitespace or a special symbol (the terminator is pushed back), then look the
buffer up in the keyword table.  The lexer cursor is modelled by the list of
characters not yet consumed. -/
def scan_id_or_keyword (cs : List Char) : (Token × String) × List Char :=
  let buffer : String := ⟨cs.takeWhile plainChar⟩
  let rest := cs.dropWhile plainChar
  match token_map buffer with
  | some t => ((t, buffer), rest)
  | none => ((.IdentifierToken, buffer), rest)

/-- The loop of `Lexer.scan_special_symbol`: greedily extend the buffer one
special character at a time while it matches a known symbol; on the first
extension that stops matching, push the character back and stop.  Reaching
the `none` accumulator result corresponds to the Python `AttributeError`
path, unreachable from `lex` because every single special character is a
known symbol. -/
def scanSpecialSymbolLoop (last : Option (Token × String)) (buffer : String)
    (cs : List Char) : Option (Token × String) × String × List Char :=
  match cs with
  | [] => (last, buffer, [])
  | c :: rest =>
    if is_special_symbol c then
      let buffer' := buffer.push c
      match token_map buffer' with
      | some t => scanSpecialSymbolLoop (some (t, buffer')) buffer' rest
      | none => (last, buffer', c :: rest)
    else (last, buffer, c :: rest)

/-- `Lexer.scan_special_symbol`. -/
def scan_special_symbol (cs : List Char) : (Token × String) × List Char :=
  match scanSpecialSymbolLoop none "" cs with
  | (some (t, lit), _, rest) => ((t, lit), rest)
  | (none, buffer, rest) =>
    ((.UnknownToken, "Error expected: keyword found " ++ buffer), rest)

/-- `Lexer.lex`: skip whitespace, then dispatch on the first character. -/
def lex (cs : List Char) : (Token × String) × List Char :=
  match cs.dropWhile is_whitespace with
  | [] => ((.EndOfStringToken, ""), [])
  | c :: rest =>
    if is_special_symbol c then scan_special_symbol (c :: rest)
    else scan_id_or_keyword (c :: rest)

/-- `Parser.scan`: call `lex` until the end-of-string token, collecting every
scanned item (the end-of-string item included).  The loop consumes at least
one character per non-terminal token, so the explicit bound
`cs.length + 1` used by `scan` is never exhausted
(`scanBounded_irrelevant`). -/
def scanBounded : Nat → List Char → List ScannedItem
  | 0, _ => []
  | fuel + 1, cs =>
    match lex cs with
    | ((t, lit), rest) =>
      if t = .EndOfStringToken then [⟨t, lit⟩]
      else ⟨t, lit⟩ :: scanBounded fuel rest

/-- `Parser.scan` on the raw character list. -/
def scan (cs : List Char) : List ScannedItem :=
  scanBounded (cs.length + 1) cs

/-- `ParserContext` enum. -/
inductive ParserContext
  | KeyAndOperator
  | Values
deriving DecidableEq

/-- The token adjustment shared by `Parser.lookahead` and `Parser.consume`:
in value context the keywords `in` and `notin` are downgraded to plain
identifiers. -/
def adjustTok (context : ParserContext) (t : Token) : Token :=
  match context with
  | .KeyAndOperator => t
  | .Values => if t = .InToken ∨ t = .NotInToken then .IdentifierToken else t

/-- `Parser.lookahead`: read the item at the current position without
consuming it.  The parser's `scanned_items` list plus integer `position` is
modelled by the list of items not yet consumed; an out-of-range access is
Python's `IndexError`. -/
def lookaheadTok (l : List ScannedItem) (context : ParserContext) :
    Except PError (Token × String) :=
  match l with
  | [] => .error .indexError
  | it :: _ => .ok (adjustTok context it.tok, it.literal)

/-- `Parser.consume`: read the item at the current position and advance. -/
def consumeTok (l : List ScannedItem) (context : ParserContext) :
    Except PError ((Token × String) × List ScannedItem) :=
  match l with
  | [] => .error .indexError
  | it :: rest => .ok ((adjustTok context it.tok, it.literal), rest)

/-- `Parser.parse_identifiers_list`: the loop collecting a comma-separated
identifier list into a `StringSet`.  Each iteration consumes at least one
scanned item, so the explicit bound `l.length + 1` passed by `parse_values`
is never exhausted. -/
def parse_identifiers_list : Nat → List ScannedItem → List String →
    Except PError (List String × List ScannedItem)
  | 0, _, _ => .error .indexError
  | _ + 1, [], _ => .error .indexError
  | fuel + 1, it :: tail, s =>
    let tok := adjustTok .Values it.tok
    if tok = .IdentifierToken then
      let s1 := stringSetInsert s it.literal
      match tail with
      | [] => .error .indexError
      | it2 :: _ =>
        let tok2 := adjustTok .Values it2.tok
        if tok2 = .CommaToken then
          parse_identifiers_list fuel tail (stringSetInsert s1 "")
        else if tok2 = .ClosedParToken then .ok (s1, tail)
        else .error (.syntaxError it2.literal "comma or closed paren")
    else if tok = .CommaToken then
      match tail with
      | [] => .error .indexError
      | it2 :: tail2 =>
        let tok2 := adjustTok .Values it2.tok
        if tok2 = .ClosedParToken then .ok (stringSetInsert s "", tail)
        else if tok2 = .CommaToken then
          parse_identifiers_list fuel tail2 (stringSetInsert s "")
        else parse_identifiers_list fuel tail s
    else .ok (s, tail)

/-- `Parser.parse_values`: parenthesized value list for `in`/`notin`. -/
def parse_values (l : List ScannedItem) :
    Except PError (List String × List ScannedItem) :=
  match consumeTok l .Values with
  | .error e => .error e
  | .ok ((tok, lit), l1) =>
    if tok ≠ .OpenParToken then .error (.syntaxError lit "open paren")
    else
      match lookaheadTok l1 .Values with
      | .error e => .error e
      | .ok (tok2, lit2) =>
        if tok2 = .IdentifierToken ∨ tok2 = .CommaToken then
          match parse_identifiers_list (l1.length + 1) l1 [] with
          | .error e => .error e
          | .ok (s, l2) =>
            match consumeTok l2 .Values with
            | .error e => .error e
            | .ok ((tok3, lit3), l3) =>
              if tok3 ≠ .ClosedParToken then
                .error (.syntaxError lit3 "closed paren")
              else .ok (s, l3)
        else if tok2 = .ClosedParToken then
          match consumeTok l1 .Values with
          | .error e => .error e
          | .ok (_, l2) => .ok ([""], l2)
        else .error (.syntaxError lit2 "comma or closed paren")

/-- `Parser.parse_exact_values`: the single bare value of `=`, `!=`, `>`,
`<`, `re`; end of input or a comma in place of the value yields the empty
string without consuming. -/
def parse_exact_values (l : List ScannedItem) :
    Except PError (List String × List ScannedItem) :=
  match lookaheadTok l .Values with
  | .error e => .error e
  | .ok (tok, _) =>
    if tok = .EndOfStringToken ∨ tok = .CommaToken then .ok ([""], l)
    else
      match consumeTok l .Values with
      | .error e => .error e
      | .ok ((tok2, lit2), l1) =>
        if tok2 = .IdentifierToken then .ok ([lit2], l1)
        else .error (.syntaxError lit2 "identifier")

/-- The tail of `Parser.parse_key_and_infer_operator`: after the key has
been consumed, look ahead to infer `Exists`/`DoesNotExist` when the
requirement ends here. -/
def inferOperatorAfterKey (l : List ScannedItem) (lit : String)
    (operator : Option Operator) :
    Except PError ((String × Option Operator) × List ScannedItem) :=
  match lookaheadTok l .Values with
  | .error e => .error e
  | .ok (t, _) =>
    if t = .EndOfStringToken ∨ t = .CommaToken then
      if operator ≠ some .DoesNotExist then .ok ((lit, some .Exists), l)
      else .ok ((lit, operator), l)
    else .ok ((lit, operator), l)

/-- `Parser.parse_key_and_infer_operator`. -/
def parse_key_and_infer_operator (l : List ScannedItem) :
    Except PError ((String × Option Operator) × List ScannedItem) :=
  match consumeTok l .Values with
  | .error e => .error e
  | .ok ((tok, lit), l1) =>
    if tok = .DoesNotExistToken then
      match consumeTok l1 .Values with
      | .error e => .error e
      | .ok ((tok2, lit2), l2) =>
        if tok2 ≠ .IdentifierToken then .error (.syntaxError lit2 "identifier")
        else inferOperatorAfterKey l2 lit2 (some .DoesNotExist)
    else
      if tok ≠ .IdentifierToken then .error (.syntaxError lit "identifier")
      else inferOperatorAfterKey l1 lit none

/-- `Parser.parse_operator`. -/
def parse_operator (l : List ScannedItem) :
    Except PError (Operator × List ScannedItem) :=
  match consumeTok l .KeyAndOperator with
  | .error e => .error e
  | .ok ((tok, lit), l1) =>
    if tok = .InToken then .ok (.In, l1)
    else if tok = .EqualsToken then .ok (.Equals, l1)
    else if tok = .GreaterThanToken then .ok (.GreaterThan, l1)
    else if tok = .LessThanToken then .ok (.LessThan, l1)
    else if tok = .NotInToken then .ok (.NotIn, l1)
    else if tok = .NotEqualsToken then .ok (.NotEquals, l1)
    else if tok = .RegexToken then .ok (.Regex, l1)
    else .error (.syntaxError lit "operator")

/-- `Parser.parse_requirement`. -/
def parse_requirement (l : List ScannedItem) :
    Except PError (Requirement × List ScannedItem) :=
  match parse_key_and_infer_operator l with
  | .error e => .error e
  | .ok ((key, inferred), l1) =>
    match inferred with
    | some .Exists =>
      match mkRequirement key .Exists [] with
      | .error e => .error e
      | .ok r => .ok (r, l1)
    | some .DoesNotExist =>
      match mkRequirement key .DoesNotExist [] with
      | .error e => .error e
      | .ok r => .ok (r, l1)
    | _ =>
      match parse_operator l1 with
      | .error e => .error e
      | .ok (operator, l2) =>
        if operator = .In ∨ operator = .NotIn then
          match parse_values l2 with
          | .error e => .error e
          | .ok (values, l3) =>
            match mkRequirement key operator values with
            | .error e => .error e
            | .ok r => .ok (r, l3)
        else if operator = .Equals ∨ operator = .NotEquals ∨
            operator = .GreaterThan ∨ operator = .LessThan ∨
            operator = .Regex then
          match parse_exact_values l2 with
          | .error e => .error e
          | .ok (values, l3) =>
            match mkRequirement key operator values with
            | .error e => .error e
            | .ok r => .ok (r, l3)
        else
          match mkRequirement key operator [] with
          | .error e => .error e
          | .ok r => .ok (r, l2)

/-- The loop of `Parser.parse`: requirements separated by commas until the
end-of-string token.  Each iteration consumes at least two scanned items, so
the explicit bound `items.length + 1` passed by `parserParse` is never
exhausted. -/
def parseLoop : Nat → List ScannedItem → List Requirement →
    Except PError (List Requirement)
  | 0, _, _ => .error .indexError
  | fuel + 1, l, acc =>
    match lookaheadTok l .Values with
    | .error e => .error e
    | .ok (tok, lit) =>
      if tok = .IdentifierToken ∨ tok = .DoesNotExistToken then
        match parse_requirement l with
        | .error e => .error e
        | .ok (r, l1) =>
          match consumeTok l1 .Values with
          | .error e => .error e
          | .ok ((t, lit1), l2) =>
            if t = .EndOfStringToken then .ok (acc ++ [r])
            else if t = .CommaToken then
              match lookaheadTok l2 .Values with
              | .error e => .error e
              | .ok (t2, lit2) =>
                if t2 = .IdentifierToken ∨ t2 = .DoesNotExistToken then
                  parseLoop fuel l2 (acc ++ [r])
                else .error (.syntaxError lit2 "identifier after comma")
            else .error (.syntaxError lit1 "comma or end of string")
      else if tok = .EndOfStringToken then .ok acc
      else .error (.syntaxError lit "exclamation, identifier, or end of string")

/-- `Parser.parse` on a selector string: scan, then run the requirement
loop. -/
def parserParse (text : String) : Except PError (List Requirement) :=
  let items := scan text.data
  parseLoop (items.length + 1) items []

/-- Python string comparison on `selector.py`'s keys: lexicographic by code
point. -/
def charsLe : List Char → List Char → Bool
  | [], _ => true
  | _ :: _, [] => false
  | a :: as, b :: bs =>
    if a.toNat < b.toNat then true
    else if b.toNat < a.toNat then false
    else charsLe as bs

/-- The key order used by `items.sort(key=lambda x: x.key)`. -/
def reqKeyLe (a b : Requirement) : Prop := charsLe a.key.data b.key.data = true

instance : DecidableRel reqKeyLe := fun a b =>
  inferInstanceAs (Decidable (charsLe a.key.data b.key.data = true))

/-- Module-level `parse`: run the parser, stable-sort the requirements by
key (Python `list.sort` is stable; `List.insertionSort` is the stable sort
with the same comparator), wrap them in a `Selector`. -/
def parse (selector : String) : Except PError Selector :=
  match parserParse selector with
  | .error e => .error e
  | .ok items => .ok ⟨List.insertionSort reqKeyLe items⟩

example : scan "key in ( value )".data =
    [⟨.IdentifierToken, "key"⟩, ⟨.InToken, "in"⟩, ⟨.OpenParToken, "("⟩,
     ⟨.IdentifierToken, "value"⟩, ⟨.ClosedParToken, ")"⟩,
     ⟨.EndOfStringToken, ""⟩] := by decide

example : scan "!= (), = notin".data =
    [⟨.NotEqualsToken, "!="⟩, ⟨.OpenParToken, "("⟩, ⟨.ClosedParToken, ")"⟩,
     ⟨.CommaToken, ","⟩, ⟨.EqualsToken, "="⟩, ⟨.NotInToken, "notin"⟩,
     ⟨.EndOfStringToken, ""⟩] := by decide

example : scan "key>2".data =
    [⟨.IdentifierToken, "key"⟩, ⟨.GreaterThanToken, ">"⟩,
     ⟨.IdentifierToken, "2"⟩, ⟨.EndOfStringToken, ""⟩] := by decide

instance {ε α : Type} [DecidableEq ε] [DecidableEq α] :
    DecidableEq (Except ε α) := fun a b =>
  match a, b with
  | .ok x, .ok y =>
    if h : x = y then isTrue (by rw [h]) else isFalse (fun hh => h (Except.ok.inj hh))
  | .error x, .error y =>
    if h : x = y then isTrue (by rw [h]) else isFalse (fun hh => h (Except.error.inj hh))
  | .ok _, .error _ => isFalse (fun hh => Except.noConfusion hh)
  | .error _, .ok _ => isFalse (fun hh => Except.noConfusion hh)

/-- Composition of the two public operations, used in concrete checks:
`parse(sel).matches(kvs)` with parse errors propagated. -/
def parseAndMatch (sel : String) (kvs : Kvs) : Except PError Bool :=
  match parse sel with
  | .error e => .error e
  | .ok s => s.matches kvs

example : parseAndMatch "" [("x", "y")] = .ok true := by decide
example : parseAndMatch "x=y" [("x", "y")] = .ok true := by decide
example : parseAndMatch "x=y,z=w" [("x", "y"), ("z", "w")] = .ok true := by decide
example : parseAndMatch "x!=y,z!=w" [("x", "z"), ("z", "a")] = .ok true := by decide
example : parseAndMatch "notin=in" [("notin", "in")] = .ok true := by decide
example : parseAndMatch "x" [("x", "z")] = .ok true := by decide
example : parseAndMatch "!x" [("y", "z")] = .ok true := by decide
example : parseAndMatch "x>1" [("x", "2")] = .ok true := by decide
example : parseAndMatch "x<1" [("x", "0")] = .ok true := by decide
example : parseAndMatch "x in (a, b)" [("x", "b")] = .ok true := by decide
example : parseAndMatch "x notin (a, b)" [("x", "c")] = .ok true := by decide
example : parseAndMatch "x=z" [] = .ok false := by decide
example : parseAndMatch "x=z" [("x", "y")] = .ok false := by decide
example : parseAndMatch "x=z,y=w" [("x", "w"), ("y", "w")] = .ok false := by decide
example : parseAndMatch "x!=z,y!=w" [("x", "z"), ("y", "w")] = .ok false := by decide
example : parseAndMatch "x" [("y", "z")] = .ok false := by decide
example : parseAndMatch "!x" [("x", "z")] = .ok false := by decide
example : parseAndMatch "x>1" [("x", "0")] = .ok false := by decide
example : parseAndMatch "x<1" [("x", "2")] = .ok false := by decide
example : parseAndMatch "x in (a, b)" [("x", "c")] = .ok false := by decide
example : parseAndMatch "x notin (a, b)" [("x", "b")] = .ok false := by decide

/-- The operator/value-count table exactly as the spec states it (section 3):
`In`/`NotIn` at least one value, `Equals`/`NotEquals`/`Regex` exactly one,
`Exists`/`DoesNotExist` exactly zero, `GreaterThan`/`LessThan` exactly one
value that parses as an integer.  Stated from the spec's words, to be
compared with `mkRequirement`, which is translated from the code. -/
def specValueCountOk (op : Operator) (values : List String) : Bool :=
  match op with
  | .In | .NotIn => decide (1 ≤ values.length)
  | .Equals | .NotEquals | .Regex => values.length == 1
  | .Exists | .DoesNotExist => values.length == 0
  | .GreaterThan | .LessThan =>
    values.length == 1 && values.all (fun v => (pyInt v).isSome)

theorem charsLe_total : ∀ (as bs : List Char),
    charsLe as bs = true ∨ charsLe bs as = true := by
  intro as
  induction as with
  | nil => intro bs; left; rfl
  | cons a as ih =>
    intro bs
    cases bs with
    | nil => right; rfl
    | cons b bs =>
      simp only [charsLe]
      by_cases h1 : a.toNat < b.toNat
      · left; simp [h1]
      · by_cases h2 : b.toNat < a.toNat
        · right; simp [h2]
        · rcases ih bs with h | h
          · left; simp [h1, h2, h]
          · right; simp [h1, h2, h]

theorem charsLe_trans : ∀ (as bs cs : List Char),
    charsLe as bs = true → charsLe bs cs = true → charsLe as cs = true := by
  intro as
  induction as with
  | nil => intro bs cs _ _; rfl
  | cons a as ih =>
    intro bs cs hab hbc
    cases bs with
    | nil => simp [charsLe] at hab
    | cons b bs =>
      cases cs with
      | nil => simp [charsLe] at hbc
      | cons c cs =>
        simp only [charsLe] at hab hbc ⊢
        by_cases h1 : a.toNat < b.toNat
        · by_cases h2 : b.toNat < c.toNat
          · have h3 : a.toNat < c.toNat := by omega
            simp [h3]
          · rw [if_neg h2] at hbc
            by_cases h3 : c.toNat < b.toNat
            · rw [if_pos h3] at hbc; exact absurd hbc (by simp)
            · have h4 : a.toNat < c.toNat := by omega
              simp [h4]
        · rw [if_neg h1] at hab
          by_cases h2 : b.toNat < a.toNat
          · rw [if_pos h2] at hab; exact absurd hab (by simp)
          · rw [if_neg h2] at hab
            by_cases h3 : b.toNat < c.toNat
            · have h4 : a.toNat < c.toNat := by omega
              simp [h4]
            · rw [if_neg h3] at hbc
              by_cases h4 : c.toNat < b.toNat
              · rw [if_pos h4] at hbc; exact absurd hbc (by simp)
              · rw [if_neg h4] at hbc
                have h5 : ¬a.toNat < c.toNat := by omega
                have h6 : ¬c.toNat < a.toNat := by omega
                simp only [if_neg h5, if_neg h6]
                exact ih bs cs hab hbc

instance : IsTotal Requirement reqKeyLe :=
  ⟨fun a b => charsLe_total a.key.data b.key.data⟩

instance : IsTrans Requirement reqKeyLe :=
  ⟨fun a b c => charsLe_trans a.key.data b.key.data c.key.data⟩

theorem matchesAll_ok_true_iff (rs : List Requirement) (kvs : Kvs) :
    matchesAll rs kvs = .ok true ↔ ∀ r ∈ rs, r.matches kvs = .ok true := by
  induction rs with
  | nil => simp [matchesAll]
  | cons r rest ih =>
    simp only [matchesAll]
    cases h : r.matches kvs with
    | error e =>
      constructor
      · intro hh; exact absurd hh (by simp)
      · intro hh
        have := hh r (by simp)
        rw [h] at this
        exact absurd this (by simp)
    | ok b =>
      cases b with
      | false =>
        constructor
        · intro hh; exact absurd hh (by simp)
        · intro hh
          have := hh r (by simp)
          rw [h] at this
          exact absurd this (by simp)
      | true =>
        rw [ih]
        constructor
        · intro hh r' hr'
          rcases List.mem_cons.mp hr' with rfl | hr'
          · exact h
          · exact hh r' hr'
        · intro hh r' hr'
          exact hh r' (List.mem_cons_of_mem _ hr')

example : parse "x in (a, b, a)" = .ok ⟨[⟨"x", .In, ["a", "", "b"]⟩]⟩ := by decide
example : parse "x in (a,,)" = .error (.syntaxError "" "closed paren") := by decide
example : parse "x in (a,,b)" = .ok ⟨[⟨"x", .In, ["a", "", "b"]⟩]⟩ := by decide
example : parse "x in (,a)" = .ok ⟨[⟨"x", .In, ["a"]⟩]⟩ := by decide
example : parse "x in (a,)" = .ok ⟨[⟨"x", .In, ["a", ""]⟩]⟩ := by decide
example : parse "x in (" = .error (.syntaxError "" "comma or closed paren") := by decide
example : parse "x in ()" = .ok ⟨[⟨"x", .In, [""]⟩]⟩ := by decide
example : parse "notin=in" = .ok ⟨[⟨"notin", .Equals, ["in"]⟩]⟩ := by decide
example : parse "x=re" = .error (.syntaxError "re" "identifier") := by decide
example : parse "x=y,z=w" = parse "z=w,x=y" := by decide
example : parse "" = .ok ⟨[]⟩ := by decide

example : pyInt "2" = some 2 := by decide
example : pyInt " -17 " = some (-17) := by decide
example : pyInt "abc" = none := by decide
example : pyInt "" = none := by decide
example : pyInt "1_0" = some 10 := by decide
example : pyInt "1_" = none := by decide
example : stringSetInsert (stringSetInsert (stringSetInsert ["a"] "") "b") "a"
    = ["a", "", "b"] := by decide

/-- C3: for every selector text that parses successfully, the requirement
sequence of the resulting Selector is sorted by key (the embedding's
`List.insertionSort` is the stable sort with the comparator of Python's
stable `list.sort`); consequently `parse "x=y,z=w"` and `parse "z=w,x=y"`
produce identical selectors. -/
theorem parse_sorted_by_key :
    (∀ (s : String) (sel : Selector), parse s = .ok sel →
      List.Sorted reqKeyLe sel.requirements)
    ∧ parse "x=y,z=w" = parse "z=w,x=y" := by
  constructor
  · intro s sel h
    unfold parse at h
    cases hp : parserParse s with
    | error e => rw [hp] at h; exact absurd h (by simp)
    | ok items =>
      rw [hp] at h
      have hsel : Selector.mk (List.insertionSort reqKeyLe items) = sel :=
        Except.ok.inj h
      rw [← hsel]
      exact List.sorted_insertionSort reqKeyLe items
  · decide

/-- Witness for C3 at the concrete input `"x=y"`. -/
theorem parse_sorted_by_key_witness :
    List.Sorted reqKeyLe (Selector.mk [⟨"x", .Equals, ["y"]⟩]).requirements :=
  parse_sorted_by_key.1 "x=y" ⟨[⟨"x", .Equals, ["y"]⟩]⟩ (by decide)

/-- C4: `Selector.matches` is the conjunction of its requirements — it
returns `ok true` iff every contained requirement returns `ok true` — and
parsing the empty string succeeds with zero requirements, whose selector
matches every candidate map. -/
theorem selector_matches_conjunction :
    (∀ (sel : Selector) (kvs : Kvs),
      sel.matches kvs = .ok true ↔ ∀ r ∈ sel.requirements, r.matches kvs = .ok true)
    ∧ parse "" = .ok ⟨[]⟩
    ∧ (∀ kvs : Kvs, (Selector.mk []).matches kvs = .ok true) :=
  ⟨fun sel kvs => matchesAll_ok_true_iff sel.requirements kvs, by decide, fun _ => rfl⟩

/-- Witness for C4 at a concrete candidate map. -/
theorem selector_matches_conjunction_witness :
    (Selector.mk []).matches [("a", "b")] = .ok true :=
  selector_matches_conjunction.2.2 [("a", "b")]

/-- C5: for a key `k`, a non-empty value set `V` and a candidate map `m`,
when `k` is present the `In` requirement returns exactly the negation of the
`NotIn` requirement; when `k` is absent, `In` returns false and `NotIn`
returns true. -/
theorem in_notin_duality :
    ∀ (k : String) (V : List String) (m : Kvs), V ≠ [] →
      (∀ v, kvsGet m k = some v →
        (Requirement.mk k .In V).matches m = .ok (hasValue V v) ∧
        (Requirement.mk k .NotIn V).matches m = .ok (!hasValue V v))
      ∧ (kvsGet m k = none →
        (Requirement.mk k .In V).matches m = .ok false ∧
        (Requirement.mk k .NotIn V).matches m = .ok true) := by
  intro k V m _
  constructor
  · intro v hv
    constructor <;> simp [Requirement.matches, hv]
  · intro hv
    constructor <;> simp [Requirement.matches, hv]

/-- Witness for C5 at concrete inputs (present key, and the value both ways). -/
theorem in_notin_duality_witness :
    ((Requirement.mk "x" .In ["a"]).matches [("x", "a")] = .ok (hasValue ["a"] "a") ∧
      (Requirement.mk "x" .NotIn ["a"]).matches [("x", "a")] = .ok (!hasValue ["a"] "a")) ∧
    ((Requirement.mk "x" .In ["a"]).matches [] = .ok false ∧
      (Requirement.mk "x" .NotIn ["a"]).matches [] = .ok true) :=
  ⟨(in_notin_duality "x" ["a"] [("x", "a")] (by decide)).1 "a" (by decide),
   (in_notin_duality "x" ["a"] [] (by decide)).2 (by decide)⟩

theorem mkRequirement_ok_shape (k : String) (op : Operator) (vs : List String)
    (r : Requirement) (h : mkRequirement k op vs = .ok r) : r = ⟨k, op, vs⟩ := by
  cases op <;>
    simp [mkRequirement] at h <;>
    (try split_ifs at h) <;>
    simp_all

theorem mkRequirement_ok_iff (k : String) (op : Operator) (vs : List String) :
    mkRequirement k op vs = .ok ⟨k, op, vs⟩ ↔ specValueCountOk op vs = true := by
  cases op <;>
    simp only [mkRequirement, specValueCountOk] <;>
    split_ifs <;>
    (try simp_all [Option.isSome_iff_exists, List.length_pos]) <;>
    (try exact List.length_pos.mpr (by assumption))

theorem mkRequirement_err_of_table_violation (k : String) (op : Operator)
    (vs : List String) (h : specValueCountOk op vs = false) :
    ∃ e, mkRequirement k op vs = .error e := by
  cases hm : mkRequirement k op vs with
  | error e => exact ⟨e, rfl⟩
  | ok r =>
    have hs := mkRequirement_ok_shape k op vs r hm
    subst hs
    have ht : specValueCountOk op vs = true := (mkRequirement_ok_iff k op vs).mp hm
    rw [ht] at h
    exact absurd h (by simp)

/-- C6: requirement construction enforces the operator/value-count table of
the spec at construction time: construction succeeds exactly on table-valid
inputs, every produced requirement satisfies the table, and every violation
is an error from the constructor. -/
theorem mkRequirement_table :
    ∀ (k : String) (op : Operator) (vs : List String),
      (mkRequirement k op vs = .ok ⟨k, op, vs⟩ ↔ specValueCountOk op vs = true)
      ∧ (∀ r, mkRequirement k op vs = .ok r →
          r = ⟨k, op, vs⟩ ∧ specValueCountOk r.operator r.values = true)
      ∧ (specValueCountOk op vs = false → ∃ e, mkRequirement k op vs = .error e) := by
  intro k op vs
  refine ⟨mkRequirement_ok_iff k op vs, ?_, mkRequirement_err_of_table_violation k op vs⟩
  intro r hr
  have hs := mkRequirement_ok_shape k op vs r hr
  subst hs
  exact ⟨rfl, (mkRequirement_ok_iff k op vs).mp hr⟩

/-- Witness for C6: a table-valid construction succeeds, a table-violating
one errors. -/
theorem mkRequirement_table_witness :
    mkRequirement "x" .In ["a"] = .ok ⟨"x", .In, ["a"]⟩ ∧
    (∃ e, mkRequirement "x" .Exists ["a"] = .error e) :=
  ⟨(mkRequirement_table "x" .In ["a"]).1.mpr (by decide),
   (mkRequirement_table "x" .Exists ["a"]).2.2 (by decide)⟩

/-- C8: a `GreaterThan`/`LessThan` requirement propagates an error when the
key is present but the candidate value does not parse as an integer, and
returns false (not an error) when the key is absent. -/
theorem gtlt_match_error_propagation :
    ∀ (k : String) (vs : List String) (m : Kvs) (op : Operator),
      op = .GreaterThan ∨ op = .LessThan →
      (∀ v, kvsGet m k = some v → pyInt v = none →
        ∃ e, (Requirement.mk k op vs).matches m = .error e)
      ∧ (kvsGet m k = none → (Requirement.mk k op vs).matches m = .ok false) := by
  intro k vs m op hop
  rcases hop with h | h <;> subst h <;> constructor
  all_goals
    first
      | (intro v hv hp
         simp [Requirement.matches, hv, hp])
      | (intro hv
         simp [Requirement.matches, hv])

/-- Witness for C8: unparseable candidate under `gt` errors; absent key under
`lt` is false. -/
theorem gtlt_match_error_propagation_witness :
    (∃ e, (Requirement.mk "x" .GreaterThan ["1"]).matches [("x", "abc")] = .error e)
    ∧ (Requirement.mk "x" .LessThan ["1"]).matches [] = .ok false :=
  ⟨(gtlt_match_error_propagation "x" ["1"] [("x", "abc")] .GreaterThan (Or.inl rfl)).1
      "abc" (by decide) (by decide),
   (gtlt_match_error_propagation "x" ["1"] [] .LessThan (Or.inr rfl)).2 (by decide)⟩

/-- C1 (evaluation of the code at the failing input): parsing
`"x in (a, b, a)"` yields the value list `["a", "", "b"]` — the identifier
branch of `parse_identifiers_list` inserts an empty string whenever the next
token is a comma — not the two-element `["a", "b"]` of the spec. -/
theorem parse_in_dup_inserts_empty :
    parse "x in (a, b, a)" = .ok ⟨[⟨"x", .In, ["a", "", "b"]⟩]⟩ := by decide

/-- C2 counterexample: two consecutive commas immediately before the closing
parenthesis are a parse error, and a leading comma immediately before an
identifier inserts no empty-string element — both contradict the claim that
irregular comma placement never errors and always inserts an empty string. -/
theorem irregular_commas_counterexample :
    parse "x in (a,,)" = .error (.syntaxError "" "closed paren") ∧
    parse "x in (,a)" = .ok ⟨[⟨"x", .In, ["a"]⟩]⟩ := by decide

/-- C7: parsing the unterminated text `"x in ("` fails with a syntax error
value; the error constructor of `Except` carries no `Selector`, so no
partial selector reaches the caller. -/
theorem parse_unterminated_errors :
    parse "x in (" = .error (.syntaxError "" "comma or closed paren") := by decide

/-- C10: the keywords `in` and `notin` are accepted as ordinary identifier
values (`"notin=in"` parses with key `notin`, operator `Equals` and value
`in`), but the keyword `re` in value position is a syntax error
(`"x=re"` fails). -/
theorem keywords_in_value_position :
    parse "notin=in" = .ok ⟨[⟨"notin", .Equals, ["in"]⟩]⟩ ∧
    parse "x=re" = .error (.syntaxError "re" "identifier") := by decide

/-- A selector substring that the lexer scans as one identifier-or-keyword
buffer and the parser accepts in value or key position: non-empty, free of
special symbols and whitespace, and not the keyword `re` (which the `Values`
context does not downgrade to an identifier). -/
def plainIdent (s : String) : Bool :=
  !s.data.isEmpty && s.data.all plainChar && !(s == "re")

/-- The token the lexer assigns to an identifier-or-keyword buffer. -/
def tokenFor (s : String) : Token :=
  (token_map s).getD .IdentifierToken

theorem takeWhile_append_all (p : Char → Bool) :
    ∀ (l₁ l₂ : List Char), (∀ a ∈ l₁, p a = true) →
      (l₂ = [] ∨ ∃ d t, l₂ = d :: t ∧ p d = false) →
      (l₁ ++ l₂).takeWhile p = l₁ := by
  intro l₁
  induction l₁ with
  | nil =>
    intro l₂ _ hb
    rcases hb with rfl | ⟨d, t, rfl, hd⟩
    · rfl
    · simp [List.takeWhile_cons, hd]
  | cons a l₁ ih =>
    intro l₂ ha hb
    have hpa : p a = true := ha a (by simp)
    simp only [List.cons_append, List.takeWhile_cons, hpa]
    simp [ih l₂ (fun x hx => ha x (by simp [hx])) hb]

theorem dropWhile_append_all (p : Char → Bool) :
    ∀ (l₁ l₂ : List Char), (∀ a ∈ l₁, p a = true) →
      (l₂ = [] ∨ ∃ d t, l₂ = d :: t ∧ p d = false) →
      (l₁ ++ l₂).dropWhile p = l₂ := by
  intro l₁
  induction l₁ with
  | nil =>
    intro l₂ _ hb
    rcases hb with rfl | ⟨d, t, rfl, hd⟩
    · rfl
    · simp [List.dropWhile_cons, hd]
  | cons a l₁ ih =>
    intro l₂ ha hb
    have hpa : p a = true := ha a (by simp)
    simp only [List.cons_append, List.dropWhile_cons, hpa]
    simp [ih l₂ (fun x hx => ha x (by simp [hx])) hb]

theorem dropWhile_head_false (p : Char → Bool) :
    ∀ l : List Char, l.dropWhile p = [] ∨
      ∃ c t, l.dropWhile p = c :: t ∧ p c = false := by
  intro l
  induction l with
  | nil => left; rfl
  | cons a l ih =>
    by_cases hpa : p a = true
    · simpa [List.dropWhile_cons, hpa] using ih
    · right
      exact ⟨a, l, by simp [List.dropWhile_cons, hpa], by simpa using hpa⟩

set_option maxHeartbeats 1600000 in
theorem token_map_plain (s : String) (h : plainIdent s = true) :
    token_map s = none ∨ token_map s = some .InToken ∨
      token_map s = some .NotInToken := by
  unfold token_map
  split_ifs with h1 h2 h3 h4 h5 h6 h7 h8 h9 h10 h11 <;>
    first
      | (left; rfl)
      | (right; left; rfl)
      | (right; right; rfl)
      | (subst_vars; exact absurd h (by decide))

theorem adjustTok_values_plain (s : String) (h : plainIdent s = true) :
    adjustTok .Values (tokenFor s) = .IdentifierToken := by
  rcases token_map_plain s h with h1 | h1 | h1 <;> simp [adjustTok, tokenFor, h1]

theorem tokenFor_plain_ne_eos (s : String) (h : plainIdent s = true) :
    tokenFor s ≠ .EndOfStringToken := by
  rcases token_map_plain s h with h1 | h1 | h1 <;> simp [tokenFor, h1]

theorem plainIdent_spec (s : String) (h : plainIdent s = true) :
    s.data ≠ [] ∧ (∀ a ∈ s.data, plainChar a = true) ∧ s ≠ "re" := by
  simp only [plainIdent, Bool.and_eq_true, Bool.not_eq_true',
    List.all_eq_true, beq_eq_false_iff_ne, ne_eq, List.isEmpty_eq_false] at h
  exact ⟨h.1.1, fun a ha => h.1.2 a ha, h.2⟩

theorem plainChar_not_ws (c : Char) (h : plainChar c = true) :
    is_whitespace c = false := by
  simp only [plainChar, Bool.not_eq_true', Bool.or_eq_false_iff] at h
  exact h.2

theorem plainChar_not_special (c : Char) (h : plainChar c = true) :
    is_special_symbol c = false := by
  simp only [plainChar, Bool.not_eq_true', Bool.or_eq_false_iff] at h
  exact h.1

theorem lex_plain (s : String) (rest : List Char) (h : plainIdent s = true)
    (hrest : rest = [] ∨ ∃ d t, rest = d :: t ∧ plainChar d = false) :
    lex (s.data ++ rest) = ((tokenFor s, s), rest) := by
  obtain ⟨hne, hall, _⟩ := plainIdent_spec s h
  obtain ⟨c, cs, hdata⟩ := List.exists_cons_of_ne_nil hne
  have hc : plainChar c = true := hall c (by rw [hdata]; simp)
  unfold lex
  rw [hdata, List.cons_append, List.dropWhile_cons, plainChar_not_ws c hc]
  simp only [Bool.false_eq_true, if_false]
  rw [plainChar_not_special c hc]
  simp only [Bool.false_eq_true, if_false]
  unfold scan_id_or_keyword
  rw [← List.cons_append, ← hdata,
    takeWhile_append_all plainChar s.data rest hall hrest,
    dropWhile_append_all plainChar s.data rest hall hrest]
  have hs : (⟨s.data⟩ : String) = s := rfl
  rw [hs]
  cases htm : token_map s with
  | none => simp [tokenFor, htm]
  | some t => simp [tokenFor, htm]

theorem scan_special_symbol_single (c : Char) (t : Token) (rest : List Char)
    (hc : is_special_symbol c = true)
    (htm : token_map ("".push c) = some t)
    (hext : ∀ d, token_map (("".push c).push d) = none) :
    scan_special_symbol (c :: rest) = ((t, "".push c), rest) := by
  unfold scan_special_symbol
  cases rest with
  | nil => simp [scanSpecialSymbolLoop, hc, htm]
  | cons d tail =>
    by_cases hd : is_special_symbol d = true
    · simp [scanSpecialSymbolLoop, hc, htm, hd, hext d]
    · simp [scanSpecialSymbolLoop, hc, htm, hd]

theorem lex_special_single (c : Char) (t : Token) (rest : List Char)
    (hc : is_special_symbol c = true) (hw : is_whitespace c = false)
    (htm : token_map ("".push c) = some t)
    (hext : ∀ d, token_map (("".push c).push d) = none) :
    lex (c :: rest) = ((t, "".push c), rest) := by
  unfold lex
  rw [List.dropWhile_cons, hw]
  simp only [Bool.false_eq_true, if_false, hc, if_true]
  exact scan_special_symbol_single c t rest hc htm hext

theorem token_map_push_openpar (d : Char) : token_map ("(".push d) = none := by
  have h1 : ("(".push d) = ⟨['(', d]⟩ := rfl
  simp [token_map, h1, String.ext_iff]

theorem token_map_push_closepar (d : Char) : token_map (")".push d) = none := by
  have h1 : (")".push d) = ⟨[')', d]⟩ := rfl
  simp [token_map, h1, String.ext_iff]

theorem token_map_push_comma (d : Char) : token_map (",".push d) = none := by
  have h1 : (",".push d) = ⟨[',', d]⟩ := rfl
  simp [token_map, h1, String.ext_iff]

theorem lex_openpar (rest : List Char) :
    lex ('(' :: rest) = ((.OpenParToken, "("), rest) := by
  have h := lex_special_single '(' .OpenParToken rest (by decide) (by decide)
    (by decide) (fun d => token_map_push_openpar d)
  rwa [show ("".push '(') = "(" from rfl] at h

theorem lex_closepar (rest : List Char) :
    lex (')' :: rest) = ((.ClosedParToken, ")"), rest) := by
  have h := lex_special_single ')' .ClosedParToken rest (by decide) (by decide)
    (by decide) (fun d => token_map_push_closepar d)
  rwa [show ("".push ')') = ")" from rfl] at h

theorem lex_comma (rest : List Char) :
    lex (',' :: rest) = ((.CommaToken, ","), rest) := by
  have h := lex_special_single ',' .CommaToken rest (by decide) (by decide)
    (by decide) (fun d => token_map_push_comma d)
  rwa [show ("".push ',') = "," from rfl] at h

theorem lex_ws (c : Char) (hw : is_whitespace c = true) (cs : List Char) :
    lex (c :: cs) = lex cs := by
  unfold lex
  rw [List.dropWhile_cons, hw]
  simp only [if_true]

theorem length_dropWhile_le (p : Char → Bool) :
    ∀ l : List Char, (l.dropWhile p).length ≤ l.length := by
  intro l
  induction l with
  | nil => simp
  | cons a l ih =>
    by_cases h : p a = true
    · rw [List.dropWhile_cons, if_pos h]
      exact le_trans ih (by simp)
    · rw [List.dropWhile_cons, if_neg (by simp [h])]

theorem scanSpecialSymbolLoop_length :
    ∀ (cs : List Char) (last : Option (Token × String)) (buffer : String),
      ((scanSpecialSymbolLoop last buffer cs).2.2).length ≤ cs.length := by
  intro cs
  induction cs with
  | nil => intro last buffer; simp [scanSpecialSymbolLoop]
  | cons c rest ih =>
    intro last buffer
    simp only [scanSpecialSymbolLoop]
    by_cases hc : is_special_symbol c = true
    · simp only [hc, if_true]
      cases htm : token_map (buffer.push c) with
      | some t =>
        exact le_trans (ih _ _) (by simp)
      | none => simp
    · simp [hc]

theorem token_map_single_special (c : Char) (hc : is_special_symbol c = true) :
    ∃ t, token_map ("".push c) = some t := by
  simp only [is_special_symbol, Bool.or_eq_true, decide_eq_true_eq] at hc
  rcases hc with h | h | h | h | h | h | h <;> subst h
  · exact ⟨.EqualsToken, by decide⟩
  · exact ⟨.DoesNotExistToken, by decide⟩
  · exact ⟨.OpenParToken, by decide⟩
  · exact ⟨.ClosedParToken, by decide⟩
  · exact ⟨.CommaToken, by decide⟩
  · exact ⟨.GreaterThanToken, by decide⟩
  · exact ⟨.LessThanToken, by decide⟩

theorem scan_id_or_keyword_rest (l : List Char) :
    (scan_id_or_keyword l).2 = l.dropWhile plainChar := by
  unfold scan_id_or_keyword
  cases htm : token_map ⟨l.takeWhile plainChar⟩ <;> simp [htm]

theorem scan_special_symbol_rest_le (c : Char) (tail : List Char)
    (hc : is_special_symbol c = true) :
    (scan_special_symbol (c :: tail)).2.length ≤ tail.length := by
  unfold scan_special_symbol
  obtain ⟨t, htm⟩ := token_map_single_special c hc
  simp only [scanSpecialSymbolLoop, hc, if_true, htm]
  have hlen := scanSpecialSymbolLoop_length tail (some (t, "".push c)) ("".push c)
  rcases hloop : scanSpecialSymbolLoop (some (t, "".push c)) ("".push c) tail
    with ⟨last', buf', rest'⟩
  rw [hloop] at hlen
  simp only at hlen
  cases last' with
  | none => simpa using hlen
  | some p => rcases p with ⟨t', lit'⟩; simpa using hlen

theorem lex_length (cs : List Char)
    (h : (lex cs).1.1 ≠ Token.EndOfStringToken) :
    (lex cs).2.length < cs.length := by
  have hdw := length_dropWhile_le is_whitespace cs
  have hhead := dropWhile_head_false is_whitespace cs
  unfold lex at h ⊢
  rcases hcs : cs.dropWhile is_whitespace with _ | ⟨c, tail⟩
  · rw [hcs] at h
    simp at h
  · rw [hcs] at hdw
    simp only [List.length_cons] at hdw
    have hcw : is_whitespace c = false := by
      rcases hhead with h1 | ⟨c', t', h1, h2⟩
      · rw [hcs] at h1; exact absurd h1 (by simp)
      · rw [hcs, List.cons.injEq] at h1
        rw [h1.1]; exact h2
    by_cases hc : is_special_symbol c = true
    · simp only [hc, if_true]
      have := scan_special_symbol_rest_le c tail hc
      omega
    · have hsp : is_special_symbol c = false := by simpa using hc
      simp only [hsp, Bool.false_eq_true, if_false]
      rw [scan_id_or_keyword_rest]
      have hpc : plainChar c = true := by
        simp [plainChar, hsp, hcw]
      rw [List.dropWhile_cons, if_pos (by simp [hpc])]
      have := length_dropWhile_le plainChar tail
      omega

theorem scanBounded_irrelevant :
    ∀ (fuel fuel' : Nat) (cs : List Char),
      cs.length < fuel → cs.length < fuel' →
      scanBounded fuel cs = scanBounded fuel' cs := by
  intro fuel
  induction fuel with
  | zero => intro fuel' cs h _; exact absurd h (by omega)
  | succ f ih =>
    intro fuel' cs hf hf'
    cases fuel' with
    | zero => exact absurd hf' (by omega)
    | succ f' =>
      simp only [scanBounded]
      rcases hlex : lex cs with ⟨⟨t, lit⟩, rest⟩
      by_cases ht : t = Token.EndOfStringToken
      · rw [if_pos ht, if_pos ht]
      · rw [if_neg ht, if_neg ht]
        have hrl : rest.length < cs.length := by
          have hl := lex_length cs (by rw [hlex]; exact ht)
          rw [hlex] at hl
          exact hl
        rw [ih f' rest (by omega) (by omega)]

theorem scan_cons (cs : List Char) (t : Token) (lit : String)
    (rest : List Char) (hlex : lex cs = ((t, lit), rest))
    (ht : t ≠ Token.EndOfStringToken) :
    scan cs = ⟨t, lit⟩ :: scan rest := by
  have h1 : scan cs =
      (match lex cs with
        | ((t, lit), rest) =>
          if t = Token.EndOfStringToken then [⟨t, lit⟩]
          else ⟨t, lit⟩ :: scanBounded cs.length rest) := rfl
  rw [h1, hlex]
  simp only
  rw [if_neg ht]
  have hrl : rest.length < cs.length := by
    have hl := lex_length cs (by rw [hlex]; exact ht)
    rw [hlex] at hl
    exact hl
  rw [scanBounded_irrelevant cs.length (rest.length + 1) rest hrl (by omega)]
  rfl

theorem scan_plain (s : String) (rest : List Char) (h : plainIdent s = true)
    (hrest : rest = [] ∨ ∃ d t, rest = d :: t ∧ plainChar d = false) :
    scan (s.data ++ rest) = ⟨tokenFor s, s⟩ :: scan rest := by
  exact scan_cons _ _ _ _ (lex_plain s rest h hrest) (tokenFor_plain_ne_eos s h)

theorem scan_openpar (rest : List Char) :
    scan ('(' :: rest) = ⟨.OpenParToken, "("⟩ :: scan rest :=
  scan_cons _ _ _ _ (lex_openpar rest) (by decide)

theorem scan_closepar (rest : List Char) :
    scan (')' :: rest) = ⟨.ClosedParToken, ")"⟩ :: scan rest :=
  scan_cons _ _ _ _ (lex_closepar rest) (by decide)

theorem scan_comma (rest : List Char) :
    scan (',' :: rest) = ⟨.CommaToken, ","⟩ :: scan rest :=
  scan_cons _ _ _ _ (lex_comma rest) (by decide)

theorem scan_ws (c : Char) (hw : is_whitespace c = true) (cs : List Char) :
    scan (c :: cs) = scan cs := by
  have h1 : scan (c :: cs) =
      (match lex (c :: cs) with
        | ((t, lit), rest) =>
          if t = Token.EndOfStringToken then [⟨t, lit⟩]
          else ⟨t, lit⟩ :: scanBounded (c :: cs).length rest) := rfl
  rw [h1, lex_ws c hw cs]
  rcases hlex : lex cs with ⟨⟨t, lit⟩, rest⟩
  by_cases ht : t = Token.EndOfStringToken
  · subst ht
    have h2 : scan cs = [⟨Token.EndOfStringToken, lit⟩] := by
      have h3 : scan cs =
          (match lex cs with
            | ((t, lit), rest) =>
              if t = Token.EndOfStringToken then [⟨t, lit⟩]
              else ⟨t, lit⟩ :: scanBounded cs.length rest) := rfl
      rw [h3, hlex]
      simp
    rw [h2]
    simp
  · rw [scan_cons cs t lit rest hlex ht]
    simp only
    rw [if_neg ht]
    have hrl : rest.length < cs.length := by
      have hl := lex_length cs (by rw [hlex]; exact ht)
      rw [hlex] at hl
      exact hl
    rw [scanBounded_irrelevant (c :: cs).length (rest.length + 1) rest
      (by simp; omega) (by omega)]
    rfl

theorem scan_nil : scan [] = [⟨.EndOfStringToken, ""⟩] := by decide

theorem parseLoop_succ (fuel : Nat) (l : List ScannedItem) (acc : List Requirement) :
    parseLoop (fuel + 1) l acc =
      (match lookaheadTok l .Values with
      | .error e => .error e
      | .ok (tok, lit) =>
        if tok = .IdentifierToken ∨ tok = .DoesNotExistToken then
          match parse_requirement l with
          | .error e => .error e
          | .ok (r, l1) =>
            match consumeTok l1 .Values with
            | .error e => .error e
            | .ok ((t, lit1), l2) =>
              if t = .EndOfStringToken then .ok (acc ++ [r])
              else if t = .CommaToken then
                match lookaheadTok l2 .Values with
                | .error e => .error e
                | .ok (t2, lit2) =>
                  if t2 = .IdentifierToken ∨ t2 = .DoesNotExistToken then
                    parseLoop fuel l2 (acc ++ [r])
                  else .error (.syntaxError lit2 "identifier after comma")
              else .error (.syntaxError lit1 "comma or end of string")
        else if tok = .EndOfStringToken then .ok acc
        else .error (.syntaxError lit "exclamation, identifier, or end of string")) :=
  rfl

/-- C9: for every plain identifier key `k`, parsing `k ++ " in ()"` succeeds
and yields one requirement with operator `In` whose value set is exactly the
one-element list containing the empty string, so the zero-values validation
of the constructor is never triggered by an empty parenthesized list. -/
theorem parse_empty_paren_list :
    ∀ k : String, plainIdent k = true →
      parse (k ++ " in ()") = .ok ⟨[⟨k, .In, [""]⟩]⟩ := by
  intro k hk
  have hdata : (k ++ " in ()").data =
      k.data ++ (' ' :: 'i' :: 'n' :: ' ' :: '(' :: ')' :: []) := by
    obtain ⟨kd⟩ := k; rfl
  have hscan : scan (k ++ " in ()").data =
      ⟨tokenFor k, k⟩ :: [⟨.InToken, "in"⟩, ⟨.OpenParToken, "("⟩,
        ⟨.ClosedParToken, ")"⟩, ⟨.EndOfStringToken, ""⟩] := by
    rw [hdata, scan_plain k _ hk (Or.inr ⟨' ', _, rfl, by decide⟩)]
    rfl
  have hadj := adjustTok_values_plain k hk
  have ha1 : adjustTok .Values .InToken = .IdentifierToken := rfl
  have ha2 : adjustTok .Values .OpenParToken = .OpenParToken := rfl
  have ha3 : adjustTok .Values .ClosedParToken = .ClosedParToken := rfl
  have ha4 : adjustTok .Values .EndOfStringToken = .EndOfStringToken := rfl
  have ha5 : ∀ t, adjustTok .KeyAndOperator t = t := fun _ => rfl
  unfold parse parserParse
  rw [hscan, parseLoop_succ]
  simp [lookaheadTok, consumeTok, parse_requirement,
    parse_key_and_infer_operator, inferOperatorAfterKey, parse_operator,
    parse_values, parse_identifiers_list, parse_exact_values, mkRequirement,
    hadj, ha1, ha2, ha3, ha4, ha5, List.insertionSort, List.orderedInsert]

/-- Witness for C9 at the concrete key `x`. -/
theorem parse_empty_paren_list_witness :
    parse ("x" ++ " in ()") = .ok ⟨[⟨"x", .In, [""]⟩]⟩ :=
  parse_empty_paren_list "x" (by decide)

theorem data_append (s t : String) : (s ++ t).data = s.data ++ t.data := rfl

/-- C2 (amended): for any identifier values, consecutive commas between
identifiers, a leading comma, and a single trailing comma parse without
error; consecutive commas and a single trailing comma insert one
empty-string element, a leading comma directly before an identifier inserts
none, and consecutive commas immediately before the closing parenthesis are
a parse error. -/
theorem irregular_commas_behavior :
    ∀ a b : String, plainIdent a = true → plainIdent b = true → a ≠ b →
      parse ("x in (" ++ a ++ ",," ++ b ++ ")") = .ok ⟨[⟨"x", .In, [a, "", b]⟩]⟩
      ∧ parse ("x in (," ++ a ++ ")") = .ok ⟨[⟨"x", .In, [a]⟩]⟩
      ∧ parse ("x in (" ++ a ++ ",)") = .ok ⟨[⟨"x", .In, [a, ""]⟩]⟩
      ∧ parse ("x in (" ++ a ++ ",,)") = .error (.syntaxError "" "closed paren") := by
  intro a b ha hb hab
  have ha0 : a ≠ "" := fun h => (plainIdent_spec a ha).1 (by rw [h])
  have hb0 : b ≠ "" := fun h => (plainIdent_spec b hb).1 (by rw [h])
  have hab' : b ≠ a := fun h => hab h.symm
  have hadjA := adjustTok_values_plain a ha
  have hadjB := adjustTok_values_plain b hb
  have ha1 : adjustTok .Values .InToken = .IdentifierToken := rfl
  have ha2 : adjustTok .Values .OpenParToken = .OpenParToken := rfl
  have ha3 : adjustTok .Values .ClosedParToken = .ClosedParToken := rfl
  have ha4 : adjustTok .Values .EndOfStringToken = .EndOfStringToken := rfl
  have ha6 : adjustTok .Values .CommaToken = .CommaToken := rfl
  have ha7 : adjustTok .Values .IdentifierToken = .IdentifierToken := rfl
  have ha5 : ∀ t, adjustTok .KeyAndOperator t = t := fun _ => rfl
  have ht1 : tokenFor "x" = .IdentifierToken := rfl
  have ht2 : tokenFor "in" = .InToken := rfl
  have hs1 : stringSetInsert [] a = [a] := by simp [stringSetInsert]
  have hs2 : stringSetInsert [a] "" = [a, ""] := by
    simp [stringSetInsert, Ne.symm ha0]
  have hs3 : stringSetInsert [a, ""] "" = [a, ""] := by simp [stringSetInsert]
  have hs4 : stringSetInsert [a, ""] b = [a, "", b] := by
    simp [stringSetInsert, hab', hb0]
  refine ⟨?_, ?_, ?_, ?_⟩
  · have hdata : ("x in (" ++ a ++ ",," ++ b ++ ")").data =
        "x".data ++ (' ' :: ("in".data ++ (' ' :: '(' ::
          (a.data ++ (',' :: ',' :: (b.data ++ (')' :: []))))))) := by
      obtain ⟨ad⟩ := a
      obtain ⟨bd⟩ := b
      simp [data_append, List.append_assoc]
    have hscan : scan ("x in (" ++ a ++ ",," ++ b ++ ")").data =
        [⟨.IdentifierToken, "x"⟩, ⟨.InToken, "in"⟩, ⟨.OpenParToken, "("⟩,
         ⟨tokenFor a, a⟩, ⟨.CommaToken, ","⟩, ⟨.CommaToken, ","⟩,
         ⟨tokenFor b, b⟩, ⟨.ClosedParToken, ")"⟩, ⟨.EndOfStringToken, ""⟩] := by
      rw [hdata,
        scan_plain "x" _ (by decide) (Or.inr ⟨' ', _, rfl, by decide⟩),
        scan_ws ' ' (by decide) _,
        scan_plain "in" _ (by decide) (Or.inr ⟨' ', _, rfl, by decide⟩),
        scan_ws ' ' (by decide) _,
        scan_openpar,
        scan_plain a _ ha (Or.inr ⟨',', _, rfl, by decide⟩),
        scan_comma, scan_comma,
        scan_plain b _ hb (Or.inr ⟨')', _, rfl, by decide⟩),
        scan_closepar, scan_nil, ht1, ht2]
    unfold parse parserParse
    rw [hscan, parseLoop_succ]
    simp [lookaheadTok, consumeTok, parse_requirement,
      parse_key_and_infer_operator, inferOperatorAfterKey, parse_operator,
      parse_values, parse_identifiers_list, parse_exact_values, mkRequirement,
      hadjA, hadjB, ha1, ha2, ha3, ha4, ha6, ha7, ha5, hs1, hs2, hs3, hs4,
      List.insertionSort, List.orderedInsert]
  · have hdata : ("x in (," ++ a ++ ")").data =
        "x".data ++ (' ' :: ("in".data ++ (' ' :: '(' :: ',' ::
          (a.data ++ (')' :: []))))) := by
      obtain ⟨ad⟩ := a
      simp [data_append, List.append_assoc]
    have hscan : scan ("x in (," ++ a ++ ")").data =
        [⟨.IdentifierToken, "x"⟩, ⟨.InToken, "in"⟩, ⟨.OpenParToken, "("⟩,
         ⟨.CommaToken, ","⟩, ⟨tokenFor a, a⟩, ⟨.ClosedParToken, ")"⟩,
         ⟨.EndOfStringToken, ""⟩] := by
      rw [hdata,
        scan_plain "x" _ (by decide) (Or.inr ⟨' ', _, rfl, by decide⟩),
        scan_ws ' ' (by decide) _,
        scan_plain "in" _ (by decide) (Or.inr ⟨' ', _, rfl, by decide⟩),
        scan_ws ' ' (by decide) _,
        scan_openpar, scan_comma,
        scan_plain a _ ha (Or.inr ⟨')', _, rfl, by decide⟩),
        scan_closepar, scan_nil, ht1, ht2]
    unfold parse parserParse
    rw [hscan, parseLoop_succ]
    simp [lookaheadTok, consumeTok, parse_requirement,
      parse_key_and_infer_operator, inferOperatorAfterKey, parse_operator,
      parse_values, parse_identifiers_list, parse_exact_values, mkRequirement,
      hadjA, ha1, ha2, ha3, ha4, ha6, ha7, ha5, hs1,
      List.insertionSort, List.orderedInsert]
  · have hdata : ("x in (" ++ a ++ ",)").data =
        "x".data ++ (' ' :: ("in".data ++ (' ' :: '(' ::
          (a.data ++ (',' :: ')' :: []))))) := by
      obtain ⟨ad⟩ := a
      simp [data_append, List.append_assoc]
    have hscan : scan ("x in (" ++ a ++ ",)").data =
        [⟨.IdentifierToken, "x"⟩, ⟨.InToken, "in"⟩, ⟨.OpenParToken, "("⟩,
         ⟨tokenFor a, a⟩, ⟨.CommaToken, ","⟩, ⟨.ClosedParToken, ")"⟩,
         ⟨.EndOfStringToken, ""⟩] := by
      rw [hdata,
        scan_plain "x" _ (by decide) (Or.inr ⟨' ', _, rfl, by decide⟩),
        scan_ws ' ' (by decide) _,
        scan_plain "in" _ (by decide) (Or.inr ⟨' ', _, rfl, by decide⟩),
        scan_ws ' ' (by decide) _,
        scan_openpar,
        scan_plain a _ ha (Or.inr ⟨',', _, rfl, by decide⟩),
        scan_comma, scan_closepar, scan_nil, ht1, ht2]
    unfold parse parserParse
    rw [hscan, parseLoop_succ]
    simp [lookaheadTok, consumeTok, parse_requirement,
      parse_key_and_infer_operator, inferOperatorAfterKey, parse_operator,
      parse_values, parse_identifiers_list, parse_exact_values, mkRequirement,
      hadjA, ha1, ha2, ha3, ha4, ha6, ha7, ha5, hs1, hs2, hs3,
      List.insertionSort, List.orderedInsert]
  · have hdata : ("x in (" ++ a ++ ",,)").data =
        "x".data ++ (' ' :: ("in".data ++ (' ' :: '(' ::
          (a.data ++ (',' :: ',' :: ')' :: []))))) := by
      obtain ⟨ad⟩ := a
      simp [data_append, List.append_assoc]
    have hscan : scan ("x in (" ++ a ++ ",,)").data =
        [⟨.IdentifierToken, "x"⟩, ⟨.InToken, "in"⟩, ⟨.OpenParToken, "("⟩,
         ⟨tokenFor a, a⟩, ⟨.CommaToken, ","⟩, ⟨.CommaToken, ","⟩,
         ⟨.ClosedParToken, ")"⟩, ⟨.EndOfStringToken, ""⟩] := by
      rw [hdata,
        scan_plain "x" _ (by decide) (Or.inr ⟨' ', _, rfl, by decide⟩),
        scan_ws ' ' (by decide) _,
        scan_plain "in" _ (by decide) (Or.inr ⟨' ', _, rfl, by decide⟩),
        scan_ws ' ' (by decide) _,
        scan_openpar,
        scan_plain a _ ha (Or.inr ⟨',', _, rfl, by decide⟩),
        scan_comma, scan_comma, scan_closepar, scan_nil, ht1, ht2]
    unfold parse parserParse
    rw [hscan, parseLoop_succ]
    simp [lookaheadTok, consumeTok, parse_requirement,
      parse_key_and_infer_operator, inferOperatorAfterKey, parse_operator,
      parse_values, parse_identifiers_list, parse_exact_values, mkRequirement,
      hadjA, ha1, ha2, ha3, ha4, ha6, ha7, ha5, hs1, hs2, hs3,
      List.insertionSort, List.orderedInsert]

/-- Witness for C2 (amended) at concrete identifiers `a` and `b`. -/
theorem irregular_commas_behavior_witness :
    parse ("x in (" ++ "a" ++ ",," ++ "b" ++ ")") = .ok ⟨[⟨"x", .In, ["a", "", "b"]⟩]⟩
    ∧ parse ("x in (," ++ "a" ++ ")") = .ok ⟨[⟨"x", .In, ["a"]⟩]⟩
    ∧ parse ("x in (" ++ "a" ++ ",)") = .ok ⟨[⟨"x", .In, ["a", ""]⟩]⟩
    ∧ parse ("x in (" ++ "a" ++ ",,)") = .error (.syntaxError "" "closed paren") :=
  irregular_commas_behavior "a" "b" (by decide) (by decide) (by decide)
